import Mathlib

/-!
Verification of the f1-race-outcome-predictor repository.

Part A embeds the Dashboard page (`src/pages/Dashboard.js`): the race list,
the `currentRace` lookup, `getTeamColor`, the podium formatting inside
`fetchPrediction`, and the overall success/failure behaviour of
`fetchPrediction` as a pure function of the two HTTP outcomes.

Part B models the Real-Time Race Probability Engine backend described by the
architecture documents (Session State Store, Session Manager, Probability
Engine); that backend is not present in the repository's source, so the
definitions are modelled from the spec and marked as such.

JavaScript numbers are embedded as rationals (`ℚ`); `Math.round` is embedded
as floor of `x + 1/2`, which matches its round-half-up behaviour.
-/

/-- A race record from the Dashboard's `availableRaces` array. -/
structure Race where
  id : String
  name : String
  circuit : String
  country : String
  flag : String
  date : String
deriving DecidableEq, Repr

/-- The Dashboard's `availableRaces` constant: the 2025 season list. -/
def availableRaces : List Race :=
  [ ⟨"bahrain-2025", "Bahrain Grand Prix", "Bahrain International Circuit", "Bahrain", "🇧🇭", "March 2, 2025"⟩,
    ⟨"saudi-2025", "Saudi Arabian Grand Prix", "Jeddah Corniche Circuit", "Saudi Arabia", "🇸🇦", "March 9, 2025"⟩,
    ⟨"australia-2025", "Australian Grand Prix", "Albert Park Circuit", "Australia", "🇦🇺", "March 16, 2025"⟩,
    ⟨"japan-2025", "Japanese Grand Prix", "Suzuka Circuit", "Japan", "🇯🇵", "March 30, 2025"⟩,
    ⟨"china-2025", "Chinese Grand Prix", "Shanghai International Circuit", "China", "🇨🇳", "April 6, 2025"⟩,
    ⟨"miami-2025", "Miami Grand Prix", "Miami International Autodrome", "USA", "🇺🇸", "May 4, 2025"⟩,
    ⟨"monaco-2025", "Monaco Grand Prix", "Circuit de Monaco", "Monaco", "🇲🇨", "May 25, 2025"⟩,
    ⟨"spain-2025", "Spanish Grand Prix", "Circuit de Barcelona-Catalunya", "Spain", "🇪🇸", "June 1, 2025"⟩,
    ⟨"canada-2025", "Canadian Grand Prix", "Circuit Gilles Villeneuve", "Canada", "🇨🇦", "June 15, 2025"⟩,
    ⟨"austria-2025", "Austrian Grand Prix", "Red Bull Ring", "Austria", "🇦🇹", "June 29, 2025"⟩,
    ⟨"britain-2025", "British Grand Prix", "Silverstone Circuit", "Great Britain", "🇬🇧", "July 6, 2025"⟩,
    ⟨"belgium-2025", "Belgian Grand Prix", "Circuit de Spa-Francorchamps", "Belgium", "🇧🇪", "July 27, 2025"⟩,
    ⟨"netherlands-2025", "Dutch Grand Prix", "Circuit Zandvoort", "Netherlands", "🇳🇱", "August 31, 2025"⟩,
    ⟨"italy-2025", "Italian Grand Prix", "Autodromo Nazionale di Monza", "Italy", "🇮🇹", "September 7, 2025"⟩,
    ⟨"singapore-2025", "Singapore Grand Prix", "Marina Bay Street Circuit", "Singapore", "🇸🇬", "September 21, 2025"⟩,
    ⟨"usa-2025", "United States Grand Prix", "Circuit of the Americas", "USA", "🇺🇸", "October 19, 2025"⟩,
    ⟨"mexico-2025", "Mexico City Grand Prix", "Autódromo Hermanos Rodríguez", "Mexico", "🇲🇽", "October 26, 2025"⟩,
    ⟨"brazil-2025", "Brazilian Grand Prix", "Autódromo José Carlos Pace", "Brazil", "🇧🇷", "November 9, 2025"⟩,
    ⟨"qatar-2025", "Qatar Grand Prix", "Losail International Circuit", "Qatar", "🇶🇦", "November 30, 2025"⟩,
    ⟨"abu-dhabi-2025", "Abu Dhabi Grand Prix", "Yas Marina Circuit", "UAE", "🇦🇪", "December 7, 2025"⟩ ]

/-- `currentRace`: `availableRaces.find(race => race.id === selectedRace) || availableRaces[0]`.
`Array.prototype.find` returns `undefined` when no element matches; a found
race object is always truthy, so `||` falls back exactly when the lookup
misses. -/
def currentRace (selectedRace : String) : Race :=
  (availableRaces.find? (fun race => race.id = selectedRace)).getD
    (availableRaces.get ⟨0, by decide⟩)

/-- `getTeamColor`: the team-to-hex-colour lookup table with `#FF0000` default. -/
def getTeamColor (teamName : String) : String :=
  if teamName = "Red Bull" then "#0600EF"
  else if teamName = "Red Bull Racing" then "#0600EF"
  else if teamName = "Ferrari" then "#DC0000"
  else if teamName = "Mercedes" then "#00D2BE"
  else if teamName = "McLaren" then "#FF8000"
  else if teamName = "Aston Martin" then "#006F62"
  else if teamName = "Alpine" then "#0090FF"
  else if teamName = "Williams" then "#005AFF"
  else if teamName = "AlphaTauri" then "#2B4562"
  else if teamName = "RB" then "#2B4562"
  else if teamName = "Alfa Romeo" then "#900000"
  else if teamName = "Kick Sauber" then "#52E252"
  else if teamName = "Haas" then "#FFFFFF"
  else "#FF0000"

/-- JavaScript `Math.round` on a rational: floor of `x + 1/2` (round half up). -/
def jsRound (x : ℚ) : ℤ := ⌊x + 1 / 2⌋

/-- One entry of a podium response's `podium_probabilities` array. The
response may carry its own `position` field; `fetchPrediction` never reads
it, which the theorems below make precise. -/
structure PodiumProb where
  driver : String
  team : String
  podium_probability : ℚ
  responsePos : Option ℤ
deriving DecidableEq, Repr

/-- A formatted podium entry as built inside `fetchPrediction`. -/
structure PodiumEntry where
  position : ℕ
  driver : String
  team : String
  probability : ℤ
  color : String
deriving DecidableEq, Repr

/-- `Array.prototype.map((p, index) => ...)` with an explicit running index. -/
def mapWithIndex (f : ℕ → PodiumProb → PodiumEntry) : ℕ → List PodiumProb → List PodiumEntry
  | _, [] => []
  | i, p :: ps => f i p :: mapWithIndex f (i + 1) ps

/-- `formattedPodium`: `podiumData.podium_probabilities?.slice(0, 3).map((p, index) =>
({position: index + 1, driver: p.driver, team: p.team,
probability: Math.round(p.podium_probability * 100), color: getTeamColor(p.team)})) || []`.
`none` stands for a response without a `podium_probabilities` field. -/
def formattedPodium (podium_probabilities : Option (List PodiumProb)) : List PodiumEntry :=
  match podium_probabilities with
  | none => []
  | some l =>
    mapWithIndex
      (fun index p =>
        { position := index + 1
          driver := p.driver
          team := p.team
          probability := jsRound (p.podium_probability * 100)
          color := getTeamColor p.team })
      0 (l.take 3)

/-- Body of the pre-race prediction response: `predictions?.winner` and
`confidence` may each be absent. -/
structure PredictionResponse where
  winnerField : Option String
  confidence : Option ℚ
deriving DecidableEq, Repr

/-- Body of the podium response: `podium_probabilities` may be absent. -/
structure PodiumResponse where
  podium_probabilities : Option (List PodiumProb)
deriving DecidableEq, Repr

/-- Outcome of one `fetch` + `.json()` round trip: the request rejects, the
response is not `ok`, the body fails to parse, or a parsed body arrives. -/
inductive HttpResult (α : Type) where
  | netError : HttpResult α
  | notOk : HttpResult α
  | badJson : HttpResult α
  | okJson (body : α) : HttpResult α
deriving DecidableEq, Repr

/-- The prediction record held in the Dashboard's `prediction` state. -/
structure Prediction where
  winner : String
  team : String
  confidence : ℤ
  podium : List PodiumEntry
deriving DecidableEq, Repr

/-- The component state that `fetchPrediction` leaves behind. -/
structure DashboardState where
  prediction : Prediction
  errorMsg : Option String
  loading : Bool
deriving DecidableEq, Repr

/-- The hard-coded fallback written by `fetchPrediction`'s catch branch. -/
def demoPrediction : Prediction :=
  { winner := "Max Verstappen"
    team := "Red Bull Racing"
    confidence := 78
    podium :=
      [ ⟨1, "Max Verstappen", "Red Bull", 35, "#0600EF"⟩,
        ⟨2, "Charles Leclerc", "Ferrari", 28, "#DC0000"⟩,
        ⟨3, "Lewis Hamilton", "Mercedes", 22, "#00D2BE"⟩ ] }

/-- JavaScript `a || b` for an optional string, where the empty string is falsy. -/
def jsOrString (a : Option String) (b : String) : String :=
  match a with
  | none => b
  | some s => if s = "" then b else s

/-- `true` when `fetchPrediction` takes its catch branch: either round trip
rejected, returned a non-ok response, or failed to parse. -/
def fetchFailed (predictionHttp : HttpResult PredictionResponse)
    (podiumHttp : HttpResult PodiumResponse) : Bool :=
  match predictionHttp, podiumHttp with
  | .okJson _, .okJson _ => false
  | _, _ => true

/-- `fetchPrediction` as a pure function of the two HTTP outcomes: on any
failure it installs `demoPrediction` and the demo error message; on success
it builds the prediction from the two bodies; `finally` clears `loading`. -/
def fetchPrediction (predictionHttp : HttpResult PredictionResponse)
    (podiumHttp : HttpResult PodiumResponse) : DashboardState :=
  match predictionHttp, podiumHttp with
  | .okJson predictionData, .okJson podiumData =>
    let winnerName := jsOrString predictionData.winnerField "Unknown"
    let winnerInfo := (podiumData.podium_probabilities.getD []).find?
      (fun p => p.driver = winnerName)
    let winnerTeam := jsOrString (winnerInfo.map (·.team)) "Unknown Team"
    { prediction :=
        { winner := winnerName
          team := winnerTeam
          confidence := jsRound (predictionData.confidence.getD 0 * 100)
          podium := formattedPodium podiumData.podium_probabilities }
      errorMsg := none
      loading := false }
  | _, _ =>
    { prediction := demoPrediction
      errorMsg := some "Using demo predictions - API not available"
      loading := false }

/-!
Part B: the Real-Time Race Probability Engine backend. The repository ships
only the UI shell; the spec (§2–§4, §8) describes the Session State Store,
Session Manager and Probability Engine that the shell will call. Every
definition below is modelled from the spec.
-/

/-- Modelled from the spec: track status variants
`TrackStatus(Green|Yellow|SafetyCar|VSC|RedFlag)` (§3, RaceEvent). -/
inductive TrackStatus where
  | green | yellow | safetyCar | vsc | redFlag
deriving DecidableEq, Repr

/-- Modelled from the spec: tire compound carried by TireChange events (§3). -/
inductive TireCompound where
  | soft | medium | hard | inter | wet
deriving DecidableEq, Repr

/-- Modelled from the spec: per-driver mutable record — current position, gap
to leader, last lap time, tire compound + age, pit-stop count, retired flag,
rolling pace estimate (§3, DriverState). Times and gaps in milliseconds. -/
structure DriverState where
  driverId : ℕ
  currentPos : ℕ
  gapToLeaderMs : ℤ
  lastLapTimeMs : ℕ
  tireCompound : TireCompound
  tireAgeLaps : ℕ
  pitStopCount : ℕ
  retired : Bool
  paceEstimateMs : ℕ
deriving DecidableEq, Repr

/-- Modelled from the spec: variant payloads of the RaceEvent tagged union
(§3): LapTimeUpdate, SectorTime, PitStop, TireChange, TrackStatus,
WeatherSample, Retirement, PositionChange. -/
inductive EventPayload where
  | lapTimeUpdate (lapMs : ℕ)
  | sectorTime (sector : ℕ) (ms : ℕ)
  | pitStop
  | tireChange (compound : TireCompound)
  | trackStatusChange (ts : TrackStatus)
  | weatherSample (tempC : ℤ) (rain : Bool)
  | retirement
  | positionChange (newPos : ℕ) (gapMs : ℤ)
deriving DecidableEq, Repr

/-- Modelled from the spec: a canonical RaceEvent — session id, monotonic
feed sequence number + wall clock, nullable driver id, variant payload (§3). -/
structure RaceEvent where
  sessionId : ℕ
  feedSeq : ℕ
  wallClockMs : ℕ
  driverId : Option ℕ
  payload : EventPayload
deriving DecidableEq, Repr

/-- Modelled from the spec: immutable SessionSnapshot — session id, track
status, session clock, ordered list of DriverState copies, monotonically
increasing snapshot sequence number (§3). -/
structure SessionSnapshot where
  sessionId : ℕ
  trackStatus : TrackStatus
  sessionClockMs : ℕ
  drivers : List DriverState
  seq : ℕ
deriving DecidableEq, Repr

/-- Modelled from the spec: the Session State Store's per-session state — the
authoritative snapshot plus the feed sequence numbers already applied, so
that replays of an already-applied event can be recognised (§4.3, §8). -/
structure StoreState where
  snapshot : SessionSnapshot
  appliedSeqs : List ℕ
deriving DecidableEq, Repr

/-- Modelled from the spec: mutate one driver's state in the ordered list. -/
def updateDriver (ds : List DriverState) (did : ℕ)
    (f : DriverState → DriverState) : List DriverState :=
  ds.map (fun d => if d.driverId = did then f d else d)

/-- Modelled from the spec: the effect of one event's payload on the snapshot
body (§3 DriverState: "mutated only through event application"). The rolling
pace estimate is exponentially weighted with a fixed 1/4 weight on the new
lap. -/
def applyPayload (sn : SessionSnapshot) (e : RaceEvent) : SessionSnapshot :=
  let sn := { sn with sessionClockMs := max sn.sessionClockMs e.wallClockMs }
  match e.payload, e.driverId with
  | .lapTimeUpdate lapMs, some did =>
    { sn with drivers := updateDriver sn.drivers did (fun d =>
        { d with lastLapTimeMs := lapMs
                 tireAgeLaps := d.tireAgeLaps + 1
                 paceEstimateMs := (3 * d.paceEstimateMs + lapMs) / 4 }) }
  | .sectorTime _ _, _ => sn
  | .pitStop, some did =>
    { sn with drivers := updateDriver sn.drivers did (fun d =>
        { d with pitStopCount := d.pitStopCount + 1 }) }
  | .tireChange compound, some did =>
    { sn with drivers := updateDriver sn.drivers did (fun d =>
        { d with tireCompound := compound, tireAgeLaps := 0 }) }
  | .trackStatusChange ts, _ => { sn with trackStatus := ts }
  | .weatherSample _ _, _ => sn
  | .retirement, some did =>
    { sn with drivers := updateDriver sn.drivers did (fun d =>
        { d with retired := true }) }
  | .positionChange newPos gapMs, some did =>
    { sn with drivers := updateDriver sn.drivers did (fun d =>
        { d with currentPos := newPos, gapToLeaderMs := gapMs }) }
  | _, none => sn

/-- Modelled from the spec: event application as a pure function of
(current state, event) → (new state, snapshot) (§4.3). A replay of an
already-applied feed sequence number leaves the state unchanged (§8,
idempotence); a fresh event mutates the snapshot body and bumps the snapshot
sequence number by exactly one. -/
def applyEvent (s : StoreState) (e : RaceEvent) : StoreState :=
  if e.feedSeq ∈ s.appliedSeqs then s
  else
    { snapshot := { applyPayload s.snapshot e with seq := s.snapshot.seq + 1 }
      appliedSeqs := e.feedSeq :: s.appliedSeqs }

/-- Modelled from the spec: apply a list of events in the given order. -/
def applyAll (s : StoreState) (es : List RaceEvent) : StoreState :=
  es.foldl applyEvent s

/-- Modelled from the spec: the stream of snapshots produced while applying
events one by one (§3: a snapshot is produced on each mutation). -/
def applyTrace (s : StoreState) : List RaceEvent → List SessionSnapshot
  | [] => []
  | e :: rest => (applyEvent s e).snapshot :: applyTrace (applyEvent s e) rest

/-- Modelled from the spec: feed order on events — comparison of the
monotonic feed sequence numbers (§3). -/
def feedLE (a b : RaceEvent) : Prop := a.feedSeq ≤ b.feedSeq

/-- Strict feed order on events. -/
def feedLT (a b : RaceEvent) : Prop := a.feedSeq < b.feedSeq

instance : DecidableRel feedLE := fun a b => Nat.decLe a.feedSeq b.feedSeq

instance : IsTotal RaceEvent feedLE := ⟨fun a b => Nat.le_total a.feedSeq b.feedSeq⟩

instance : IsTrans RaceEvent feedLE := ⟨fun _ _ _ h h' => Nat.le_trans h h'⟩

instance : IsAntisymm RaceEvent feedLT :=
  ⟨fun _ _ h h' => absurd h' (Nat.not_lt.mpr (Nat.le_of_lt h))⟩

/-- Modelled from the spec: the reordering buffer (§4.3) restores feed order
for events held within the window before they reach the store. -/
def sortByFeedSeq (es : List RaceEvent) : List RaceEvent :=
  es.insertionSort feedLE

/-- Modelled from the spec: buffered application — the reordering buffer
collects the events of one window, reorders them into feed order, and the
store applies them (§4.3). -/
def processBuffered (s : StoreState) (es : List RaceEvent) : StoreState :=
  applyAll s (sortByFeedSeq es)

/-- Modelled from the spec: a fresh store for a session — snapshot sequence
number 0, green track, no events applied yet. -/
def initStore (sid : ℕ) (drivers : List DriverState) : StoreState :=
  { snapshot :=
      { sessionId := sid
        trackStatus := .green
        sessionClockMs := 0
        drivers := drivers
        seq := 0 }
    appliedSeqs := [] }

/-- Modelled from the spec: a valid event sequence for a store — events in
strict feed order, none of them already applied (§3 invariant). -/
def ValidFeed (s : StoreState) (es : List RaceEvent) : Prop :=
  es.Pairwise feedLT ∧ ∀ e ∈ es, e.feedSeq ∉ s.appliedSeqs

instance (s : StoreState) (es : List RaceEvent) : Decidable (ValidFeed s es) := by
  unfold ValidFeed feedLT; infer_instance

/-!
Session Manager: lifecycle states and the legal transition table (§3, §4.2).
-/

/-- Modelled from the spec: session lifecycle states
{Created, Live, Suspended, Completed, Aborted} (§3, Session). -/
inductive SessionLifecycle where
  | created | live | suspended | completed | aborted
deriving DecidableEq, Repr

/-- Modelled from the spec: the legal transition table (§3) — Created → Live
on first accepted event, Live → Suspended on RedFlag, Suspended → Live on
clearing, Live/Suspended → Completed on session-end signal, any active state
→ Aborted on irrecoverable feed failure. Completed and Aborted are terminal. -/
def legalTransition : SessionLifecycle → SessionLifecycle → Bool
  | .created, .live => true
  | .created, .aborted => true
  | .live, .suspended => true
  | .live, .completed => true
  | .live, .aborted => true
  | .suspended, .live => true
  | .suspended, .completed => true
  | .suspended, .aborted => true
  | _, _ => false

/-- Modelled from the spec: errors raised by Session Manager operations (§7). -/
inductive ManagerError where
  | unknownSession
  | illegalTransition
deriving DecidableEq, Repr

/-- Modelled from the spec: the Session Manager's registry — a mapping from
session id to lifecycle state (§4.2, §9). -/
def Registry : Type := List (ℕ × SessionLifecycle)

instance : DecidableEq Registry := by unfold Registry; infer_instance

/-- Look up a session's lifecycle state in the registry. -/
def lookupSession (reg : Registry) (sid : ℕ) : Option SessionLifecycle :=
  (reg.find? (fun p => p.1 = sid)).map (·.2)

/-- Replace a session's lifecycle state in the registry. -/
def setSession (reg : Registry) (sid : ℕ) (st : SessionLifecycle) : Registry :=
  reg.map (fun p => if p.1 = sid then (p.1, st) else p)

/-- Modelled from the spec: `transition(sessionId, newState)` — enforces the
legal transition table; fails with `IllegalTransitionError` on invalid
transitions, leaving the registry unchanged; fails with `UnknownSessionError`
when the session id is absent (§4.2, §7). Returns the registry after the call
together with the error, if any. -/
def transition (reg : Registry) (sid : ℕ) (newState : SessionLifecycle) :
    Registry × Option ManagerError :=
  match lookupSession reg sid with
  | none => (reg, some .unknownSession)
  | some cur =>
    if legalTransition cur newState then (setSession reg sid newState, none)
    else (reg, some .illegalTransition)

/-!
Probability Engine scheduling: snapshot coalescing under load (§4.4, §8
Scenario C).
-/

/-- Modelled from the spec: what the engine's per-session scheduler holds —
at most one queued snapshot (the latest; superseded intermediates are
discarded, never queued) and the list of snapshots handed to the scoring
function so far, in order (§4.4). -/
structure EngineQueue where
  pending : Option SessionSnapshot
  scored : List SessionSnapshot
deriving DecidableEq, Repr

/-- Modelled from the spec: scheduler happenings — a snapshot arrives from
the state store, or the scoring function becomes free and takes the queued
snapshot (§4.4). -/
inductive EngineHappening where
  | arrive (sn : SessionSnapshot)
  | scoreTick
deriving DecidableEq, Repr

/-- Modelled from the spec: one scheduler step. An arriving snapshot replaces
whatever was queued (latest-value-wins); a score tick hands the queued
snapshot, if any, to the scoring function (§4.4). -/
def engineStep (q : EngineQueue) : EngineHappening → EngineQueue
  | .arrive sn => { q with pending := some sn }
  | .scoreTick =>
    match q.pending with
    | none => q
    | some sn => { pending := none, scored := q.scored ++ [sn] }

/-- Modelled from the spec: run the scheduler over a list of happenings. -/
def engineRun (q : EngineQueue) (hs : List EngineHappening) : EngineQueue :=
  hs.foldl engineStep q

/-!
Probability Engine numeric policy (§4.4): clamp to [0,1], renormalize to sum
to 1 within the category, smooth against the previous result with a bounded
per-tick delta, lifted on track-status change. Probability vectors are
functions over the index set of the non-retired drivers.
-/

/-- Modelled from the spec: clamp a probability to [0,1] (§4.4). -/
def clamp01 (x : ℚ) : ℚ := max 0 (min 1 x)

/-- Modelled from the spec: renormalize a category of raw scores to sum to 1
after clamping (§4.4). If every clamped score is 0 the mass is spread
uniformly. -/
def renormalize {n : ℕ} (p : Fin n → ℚ) : Fin n → ℚ :=
  if (∑ i, clamp01 (p i)) = 0 then fun _ => 1 / (n : ℚ)
  else fun i => clamp01 (p i) / (∑ j, clamp01 (p j))

/-- Modelled from the spec: the default smoothing cap — 15 percentage points
per tick (§4.4). -/
def deltaCap : ℚ := 15 / 100

/-- Largest per-driver distance between the previous result and the new
target, 0 when there are no drivers. -/
def maxAbsDelta {n : ℕ} (prev target : Fin n → ℚ) : ℚ :=
  Finset.univ.fold max 0 (fun i => |target i - prev i|)

/-- Modelled from the spec: the fraction of each driver's move toward the new
target that keeps every per-driver move within the cap (§4.4 smoothing). -/
def smoothFactor {n : ℕ} (prev target : Fin n → ℚ) (cap : ℚ) : ℚ :=
  if maxAbsDelta prev target ≤ cap then 1 else cap / maxAbsDelta prev target

/-- Modelled from the spec: smooth the previous result toward the new target,
moving every driver by the same fraction so that no driver moves by more than
the cap and total mass is conserved (§4.4). -/
def smoothToward {n : ℕ} (prev target : Fin n → ℚ) (cap : ℚ) : Fin n → ℚ :=
  fun i => prev i + smoothFactor prev target cap * (target i - prev i)

/-- Modelled from the spec: one recomputation tick of the Probability Engine
over the win category — clamp, renormalize, then smooth against the previous
result, except on track-status change where the delta cap is lifted (§4.4,
§8 Scenario B). -/
def engineTick {n : ℕ} (prev : Fin n → ℚ) (raw : Fin n → ℚ)
    (trackStatusChanged : Bool) : Fin n → ℚ :=
  if trackStatusChanged then renormalize raw
  else smoothToward prev (renormalize raw) deltaCap

/-- Successive `engineTick` results starting from a previous result: each
tick carries the raw scores and whether the track status changed. -/
def probResultsAux {n : ℕ} (prev : Fin n → ℚ) :
    List ((Fin n → ℚ) × Bool) → List (Fin n → ℚ)
  | [] => []
  | t :: ts =>
    engineTick prev t.1 t.2 :: probResultsAux (engineTick prev t.1 t.2) ts

/-- Modelled from the spec: the win-probability vectors of the successive
`ProbabilityResult` values produced over a run — the first result is the
renormalized first score, each later one an `engineTick` against its
predecessor (§4.4). -/
def probResults {n : ℕ} (raw₀ : Fin n → ℚ)
    (ts : List ((Fin n → ℚ) × Bool)) : List (Fin n → ℚ) :=
  renormalize raw₀ :: probResultsAux (renormalize raw₀) ts

/-!
Sample data used by the witness theorems.
-/

/-- A sample driver state for concrete evaluations. -/
def sampleDriver : DriverState :=
  ⟨44, 1, 0, 90000, .soft, 3, 1, false, 91000⟩

/-- A sample lap-time event with feed sequence number 5. -/
def sampleEvent : RaceEvent := ⟨1, 5, 1000, some 44, .lapTimeUpdate 89500⟩

/-- A sample store that has already applied feed sequence numbers 3, 4, 5. -/
def sampleStore : StoreState :=
  { snapshot := ⟨1, .green, 900, [sampleDriver], 3⟩, appliedSeqs := [5, 4, 3] }

/-- A sample snapshot with the given clock and sequence number. -/
def sampleSnap (k : ℕ) : SessionSnapshot := ⟨1, .green, k, [], k⟩

/-!
Dashboard theorems.
-/

/-- Length of a `mapWithIndex` image. -/
theorem length_mapWithIndex (f : ℕ → PodiumProb → PodiumEntry) (i : ℕ)
    (l : List PodiumProb) : (mapWithIndex f i l).length = l.length := by
  induction l generalizing i with
  | nil => rfl
  | cons p ps ih => simp [mapWithIndex, ih]

/-- When the builder stores `index + 1` as the position, the positions of a
`mapWithIndex` image are the consecutive numbers starting at `i + 1`. -/
theorem mapWithIndex_positions (f : ℕ → PodiumProb → PodiumEntry)
    (hf : ∀ i p, (f i p).position = i + 1) (i : ℕ) (l : List PodiumProb) :
    (mapWithIndex f i l).map PodiumEntry.position = List.range' (i + 1) l.length := by
  induction l generalizing i with
  | nil => rfl
  | cons p ps ih => simp [mapWithIndex, List.range'_succ, hf, ih]

/-- When the builder computes the probability field from the source entry,
the image is pointwise related to the source list. -/
theorem mapWithIndex_probabilities (f : ℕ → PodiumProb → PodiumEntry)
    (hf : ∀ i p, (f i p).probability = jsRound (p.podium_probability * 100))
    (i : ℕ) (l : List PodiumProb) :
    List.Forall₂ (fun e p => e.probability = jsRound (p.podium_probability * 100))
      (mapWithIndex f i l) l := by
  induction l generalizing i with
  | nil => exact List.Forall₂.nil
  | cons p ps ih => exact List.Forall₂.cons (hf i p) (ih _)

/-- C9: the formatted podium has at most 3 entries; its positions are the
consecutive numbers 1, 2, 3 in list order regardless of the response's own
position fields; each displayed probability is `Math.round` of the response
probability times 100; a response without `podium_probabilities` yields the
empty podium. -/
theorem formattedPodium_spec (resp : Option (List PodiumProb)) :
    (formattedPodium resp).length ≤ 3 ∧
    (formattedPodium resp).map PodiumEntry.position =
      List.range' 1 (formattedPodium resp).length ∧
    List.Forall₂ (fun e p => e.probability = jsRound (p.podium_probability * 100))
      (formattedPodium resp) ((resp.getD []).take 3) ∧
    formattedPodium none = [] := by
  refine ⟨?_, ?_, ?_, rfl⟩
  · cases resp with
    | none => simp [formattedPodium]
    | some l =>
      rw [formattedPodium, length_mapWithIndex, List.length_take]
      exact min_le_left 3 l.length
  · cases resp with
    | none => rfl
    | some l =>
      rw [formattedPodium, length_mapWithIndex]
      exact mapWithIndex_positions _ (fun i p => rfl) 0 (l.take 3)
  · cases resp with
    | none => exact List.Forall₂.nil
    | some l =>
      exact mapWithIndex_probabilities _ (fun i p => rfl) 0 (l.take 3)

/-- Concrete instance of the podium-formatting theorem: two response entries
whose own position fields are 5 and 1 still come out numbered 1, 2. -/
theorem formattedPodium_spec_witness :
    (formattedPodium (some [⟨"Lando Norris", "McLaren", 62 / 100, some 5⟩,
        ⟨"Oscar Piastri", "McLaren", 54 / 100, some 1⟩])).map PodiumEntry.position =
      List.range' 1 (formattedPodium (some [⟨"Lando Norris", "McLaren", 62 / 100, some 5⟩,
        ⟨"Oscar Piastri", "McLaren", 54 / 100, some 1⟩])).length :=
  (formattedPodium_spec (some [⟨"Lando Norris", "McLaren", 62 / 100, some 5⟩,
    ⟨"Oscar Piastri", "McLaren", 54 / 100, some 1⟩])).2.1

/-- C8: whenever either HTTP round trip fails (network error, non-ok
response, or unparsable body), `fetchPrediction` installs the fixed demo
fallback prediction and the demo error message; in every execution,
successful or not, `loading` ends up false. -/
theorem fetchPrediction_fallback (a : HttpResult PredictionResponse)
    (b : HttpResult PodiumResponse) (h : fetchFailed a b = true) :
    fetchPrediction a b =
      ⟨demoPrediction, some "Using demo predictions - API not available", false⟩ ∧
    demoPrediction.winner = "Max Verstappen" ∧
    demoPrediction.team = "Red Bull Racing" ∧
    demoPrediction.confidence = 78 ∧
    demoPrediction.podium.length = 3 ∧
    ∀ (a' : HttpResult PredictionResponse) (b' : HttpResult PodiumResponse),
      (fetchPrediction a' b').loading = false := by
  refine ⟨?_, rfl, rfl, rfl, rfl, ?_⟩
  · cases a <;> cases b <;> first | rfl | simp [fetchFailed] at h
  · intro a' b'
    cases a' <;> cases b' <;> rfl

/-- Concrete instance of the fetch-failure theorem at a non-ok first
response. -/
theorem fetchPrediction_fallback_witness :
    fetchPrediction .notOk (.okJson ⟨some []⟩) =
      ⟨demoPrediction, some "Using demo predictions - API not available", false⟩ :=
  (fetchPrediction_fallback .notOk (.okJson ⟨some []⟩) rfl).1

/-- C10: for every value of `selectedRace`, including ids absent from
`availableRaces`, `currentRace` returns an entry of `availableRaces`; when no
race id matches, it falls back to the first entry, whose id is
`bahrain-2025`, so race-detail rendering never dereferences an absent
record. -/
theorem currentRace_total (sel : String) :
    currentRace sel ∈ availableRaces ∧
    ((∀ r ∈ availableRaces, r.id ≠ sel) →
      currentRace sel = availableRaces.get ⟨0, by decide⟩) ∧
    (availableRaces.get ⟨0, by decide⟩).id = "bahrain-2025" := by
  refine ⟨?_, ?_, rfl⟩
  · unfold currentRace
    cases h : availableRaces.find? (fun race => race.id = sel) with
    | none => exact availableRaces.get_mem 0 (by decide)
    | some r =>
      simp only [Option.getD_some]
      exact List.mem_of_find?_eq_some h
  · intro hall
    have hnone : availableRaces.find? (fun race => race.id = sel) = none := by
      apply List.find?_eq_none.mpr
      intro x hx
      simpa using hall x hx
    unfold currentRace
    rw [hnone]
    rfl

/-- Concrete instance of the race-lookup theorem at an id that matches no
race. -/
theorem currentRace_total_witness :
    currentRace "unknown-race-id" = availableRaces.get ⟨0, by decide⟩ :=
  (currentRace_total "unknown-race-id").2.1 (by decide)

/-!
Session Manager theorems.
-/

/-- C5: `transition` rejects every pair outside the legal transition table
with `IllegalTransitionError` and returns the registry unchanged; in
particular a session already in Completed cannot be completed again (the
witness below instantiates Completed → Completed). -/
theorem transition_illegal_rejected (reg : Registry) (sid : ℕ)
    (cur newState : SessionLifecycle)
    (hcur : lookupSession reg sid = some cur)
    (hill : legalTransition cur newState = false) :
    transition reg sid newState = (reg, some .illegalTransition) := by
  unfold transition
  rw [hcur]
  simp [hill]

/-- Scenario E concretely: completing an already-Completed session fails with
`IllegalTransitionError` and leaves the registry unchanged. -/
theorem transition_illegal_rejected_witness :
    transition [(7, .completed)] 7 .completed =
      ([(7, .completed)], some .illegalTransition) :=
  transition_illegal_rejected [(7, .completed)] 7 .completed .completed rfl rfl

/-!
Session State Store theorems.
-/

/-- Applying an event whose feed sequence number was already applied leaves
the store unchanged. -/
theorem applyEvent_of_mem (s : StoreState) (e : RaceEvent)
    (h : e.feedSeq ∈ s.appliedSeqs) : applyEvent s e = s := by
  unfold applyEvent
  rw [if_pos h]

/-- Applying a fresh event bumps the snapshot sequence number by one and
records the feed sequence number. -/
theorem applyEvent_of_not_mem (s : StoreState) (e : RaceEvent)
    (h : e.feedSeq ∉ s.appliedSeqs) :
    applyEvent s e =
      { snapshot := { applyPayload s.snapshot e with seq := s.snapshot.seq + 1 }
        appliedSeqs := e.feedSeq :: s.appliedSeqs } := by
  unfold applyEvent
  rw [if_neg h]

/-- C3: event application is idempotent with respect to the feed sequence
number — re-applying an event immediately after applying it changes nothing,
and replaying any event whose sequence number is already recorded leaves the
state (hence the current snapshot) unchanged. -/
theorem applyEvent_idempotent (s : StoreState) (e : RaceEvent) :
    applyEvent (applyEvent s e) e = applyEvent s e ∧
    (e.feedSeq ∈ s.appliedSeqs → applyEvent s e = s) := by
  constructor
  · by_cases h : e.feedSeq ∈ s.appliedSeqs
    · rw [applyEvent_of_mem s e h]
      exact applyEvent_of_mem s e h
    · rw [applyEvent_of_not_mem s e h]
      exact applyEvent_of_mem _ e (List.mem_cons_self _ _)
  · exact applyEvent_of_mem s e

/-- Concrete instance of idempotence: replaying an event whose sequence
number 5 is already recorded leaves `sampleStore` unchanged. -/
theorem applyEvent_idempotent_witness :
    applyEvent sampleStore sampleEvent = sampleStore :=
  (applyEvent_idempotent sampleStore sampleEvent).2 (by decide)

/-!
Probability Engine scheduling theorems.
-/

/-- A burst of arrivals with the scoring function busy leaves exactly the
last snapshot queued and scores nothing. -/
theorem engineRun_arrivals (q : EngineQueue) (sns : List SessionSnapshot)
    (hne : sns ≠ []) :
    engineRun q (sns.map .arrive) = { q with pending := some (sns.getLast hne) } := by
  induction sns generalizing q with
  | nil => exact absurd rfl hne
  | cons sn rest ih =>
    cases rest with
    | nil => rfl
    | cons sn' rest' =>
      rw [List.map_cons]
      rw [show engineRun q (.arrive sn :: (sn' :: rest').map .arrive) =
        engineRun { q with pending := some sn } ((sn' :: rest').map .arrive) from rfl]
      rw [ih { q with pending := some sn } (by simp)]
      rfl

/-- C6: when a burst of snapshots arrives faster than the scoring function
can process (no score tick between arrivals), the next score tick hands
exactly the last arrival to the scoring function; every superseded
intermediate snapshot is discarded and never scored. -/
theorem coalesce_latest_only (q : EngineQueue) (sns : List SessionSnapshot)
    (hne : sns ≠ []) :
    engineRun q (sns.map .arrive ++ [.scoreTick]) =
      { pending := none, scored := q.scored ++ [sns.getLast hne] } ∧
    ∀ sn, sn ∈ (engineRun q (sns.map .arrive ++ [.scoreTick])).scored →
      sn ∈ q.scored ∨ sn = sns.getLast hne := by
  have hrun : engineRun q (sns.map .arrive ++ [.scoreTick]) =
      { pending := none, scored := q.scored ++ [sns.getLast hne] } := by
    unfold engineRun
    rw [List.foldl_append]
    rw [show (sns.map .arrive).foldl engineStep q = engineRun q (sns.map .arrive) from rfl]
    rw [engineRun_arrivals q sns hne]
    rfl
  refine ⟨hrun, ?_⟩
  intro sn hmem
  rw [hrun] at hmem
  simpa using List.mem_append.mp hmem

/-- Scenario C concretely: three snapshots arrive while scoring is busy; the
following score tick scores only the last of them. -/
theorem coalesce_latest_only_witness :
    engineRun ⟨none, []⟩
        ([sampleSnap 1, sampleSnap 2, sampleSnap 3].map .arrive ++ [.scoreTick]) =
      { pending := none, scored := [] ++ [sampleSnap 3] } :=
  (coalesce_latest_only ⟨none, []⟩ [sampleSnap 1, sampleSnap 2, sampleSnap 3]
    (by decide)).1

/-- C2: applying a valid event sequence in feed order produces snapshots
whose sequence numbers are exactly the consecutive naturals starting just
above the current snapshot's — strictly increasing with no gaps. -/
theorem snapshot_seqs_consecutive (s : StoreState) (es : List RaceEvent)
    (h : ValidFeed s es) :
    (applyTrace s es).map SessionSnapshot.seq =
      List.range' (s.snapshot.seq + 1) es.length := by
  induction es generalizing s with
  | nil => rfl
  | cons e rest ih =>
    obtain ⟨hpw, hfresh⟩ := h
    have hnotmem : e.feedSeq ∉ s.appliedSeqs := hfresh e (List.mem_cons_self e rest)
    have happ := applyEvent_of_not_mem s e hnotmem
    have hvalid : ValidFeed (applyEvent s e) rest := by
      refine ⟨(List.pairwise_cons.mp hpw).2, ?_⟩
      intro e' he'
      rw [happ]
      intro hmem
      rcases List.mem_cons.mp hmem with heq | hmem'
      · have hlt : e.feedSeq < e'.feedSeq := (List.pairwise_cons.mp hpw).1 e' he'
        exact absurd (heq ▸ hlt) (Nat.lt_irrefl _)
      · exact hfresh e' (List.mem_cons_of_mem e he') hmem'
    rw [applyTrace, List.map_cons, ih _ hvalid, happ, List.length_cons, List.range'_succ]

/-- Concrete instance of C2: two fresh events in feed order yield snapshot
sequence numbers 1, 2. -/
theorem snapshot_seqs_consecutive_witness :
    (applyTrace (initStore 1 [sampleDriver])
        [⟨1, 1, 100, some 44, .lapTimeUpdate 90000⟩,
         ⟨1, 2, 200, none, .trackStatusChange .yellow⟩]).map SessionSnapshot.seq =
      List.range' 1 2 :=
  snapshot_seqs_consecutive (initStore 1 [sampleDriver])
    [⟨1, 1, 100, some 44, .lapTimeUpdate 90000⟩,
     ⟨1, 2, 200, none, .trackStatusChange .yellow⟩] (by decide)

/-- In a list sorted by feed order whose feed sequence numbers are distinct,
the events are sorted by strict feed order. -/
theorem sorted_feedLT_of_nodup {l : List RaceEvent}
    (hs : l.Sorted feedLE) (hnd : (l.map RaceEvent.feedSeq).Nodup) :
    l.Sorted feedLT := by
  have hne : l.Pairwise (fun a b => a.feedSeq ≠ b.feedSeq) := by
    rw [List.Nodup, List.pairwise_map] at hnd
    exact hnd
  exact (List.Pairwise.and hs hne).imp (fun h => lt_of_le_of_ne h.1 h.2)

/-- The reordering buffer's output is determined by the set of buffered
events alone: any permutation of events with distinct feed sequence numbers
sorts to the same feed-order list. -/
theorem sortByFeedSeq_perm_eq (es es' : List RaceEvent)
    (hperm : List.Perm es' es) (hnd : (es.map RaceEvent.feedSeq).Nodup) :
    sortByFeedSeq es' = sortByFeedSeq es := by
  have hp1 : List.Perm (sortByFeedSeq es') es' := List.perm_insertionSort feedLE es'
  have hp2 : List.Perm (sortByFeedSeq es) es := List.perm_insertionSort feedLE es
  have hnd1 : ((sortByFeedSeq es).map RaceEvent.feedSeq).Nodup :=
    ((hp2.map RaceEvent.feedSeq).nodup_iff).mpr hnd
  have hnd2 : ((sortByFeedSeq es').map RaceEvent.feedSeq).Nodup :=
    (((hp1.trans hperm).map RaceEvent.feedSeq).nodup_iff).mpr hnd
  have hs1 : (sortByFeedSeq es').Sorted feedLT :=
    sorted_feedLT_of_nodup (List.sorted_insertionSort feedLE es') hnd2
  have hs2 : (sortByFeedSeq es).Sorted feedLT :=
    sorted_feedLT_of_nodup (List.sorted_insertionSort feedLE es) hnd1
  exact List.eq_of_perm_of_sorted ((hp1.trans hperm).trans hp2.symm) hs1 hs2

/-- C4: applying a window of events (at most 50 of them, all within the
2000ms window, with distinct feed sequence numbers) through the reordering
buffer in any permutation produces the same final store as applying them in
feed order. -/
theorem buffered_permutation_invariant (s : StoreState) (t₀ : ℕ)
    (es es' : List RaceEvent)
    (hperm : List.Perm es' es)
    (hnd : (es.map RaceEvent.feedSeq).Nodup)
    (_hcount : es.length ≤ 50)
    (_hwindow : ∀ e ∈ es, e.wallClockMs ≤ t₀ + 2000)
    (hsorted : es.Sorted feedLE) :
    processBuffered s es' = applyAll s es := by
  unfold processBuffered
  rw [sortByFeedSeq_perm_eq es es' hperm hnd]
  unfold sortByFeedSeq
  rw [hsorted.insertionSort_eq]

/-- A buffered event for the reordering witness. -/
def bufEventA : RaceEvent := ⟨2, 10, 100, some 44, .pitStop⟩

/-- A later buffered event for the reordering witness. -/
def bufEventB : RaceEvent := ⟨2, 11, 300, some 44, .tireChange .hard⟩

/-- Concrete instance of C4: delivering two events out of order through the
buffer equals applying them in feed order. -/
theorem buffered_permutation_invariant_witness :
    processBuffered (initStore 2 [sampleDriver]) [bufEventB, bufEventA] =
      applyAll (initStore 2 [sampleDriver]) [bufEventA, bufEventB] :=
  buffered_permutation_invariant (initStore 2 [sampleDriver]) 0
    [bufEventA, bufEventB] [bufEventB, bufEventA]
    (by decide) (by decide) (by decide) (by decide) (by decide)

/-!
Probability Engine numeric theorems.
-/

/-- Clamped probabilities are nonnegative. -/
theorem clamp01_nonneg (x : ℚ) : 0 ≤ clamp01 x := le_max_left 0 _

/-- Clamped probabilities are at most one. -/
theorem clamp01_le_one (x : ℚ) : clamp01 x ≤ 1 :=
  max_le zero_le_one (min_le_left 1 x)

/-- When every clamped score is zero, renormalization spreads the mass
uniformly. -/
theorem renormalize_eq_uniform {n : ℕ} (p : Fin n → ℚ)
    (h : (∑ i, clamp01 (p i)) = 0) :
    renormalize p = fun _ => 1 / (n : ℚ) := by
  unfold renormalize
  rw [if_pos h]

/-- Otherwise renormalization divides each clamped score by their sum. -/
theorem renormalize_eq_div {n : ℕ} (p : Fin n → ℚ)
    (h : ¬(∑ i, clamp01 (p i)) = 0) :
    renormalize p = fun i => clamp01 (p i) / (∑ j, clamp01 (p j)) := by
  unfold renormalize
  rw [if_neg h]

/-- The renormalized win category sums to exactly 1. -/
theorem sum_renormalize {n : ℕ} (hn : 0 < n) (p : Fin n → ℚ) :
    (∑ i, renormalize p i) = 1 := by
  by_cases h : (∑ i, clamp01 (p i)) = 0
  · simp only [renormalize_eq_uniform p h]
    rw [Finset.sum_const, Finset.card_univ, Fintype.card_fin, nsmul_eq_mul, mul_one_div,
      div_self (show (n : ℚ) ≠ 0 by exact_mod_cast hn.ne')]
  · simp only [renormalize_eq_div p h]
    rw [← Finset.sum_div, div_self h]

/-- Each renormalized probability lies in [0,1]. -/
theorem renormalize_mem_unit {n : ℕ} (hn : 0 < n) (p : Fin n → ℚ) (i : Fin n) :
    0 ≤ renormalize p i ∧ renormalize p i ≤ 1 := by
  have hnpos : (0 : ℚ) < n := by exact_mod_cast hn
  by_cases h : (∑ j, clamp01 (p j)) = 0
  · simp only [renormalize_eq_uniform p h]
    exact ⟨(div_pos one_pos hnpos).le,
      (div_le_one hnpos).mpr (by exact_mod_cast hn)⟩
  · simp only [renormalize_eq_div p h]
    have htnonneg : 0 ≤ ∑ j, clamp01 (p j) :=
      Finset.sum_nonneg (fun j _ => clamp01_nonneg (p j))
    have htpos : 0 < ∑ j, clamp01 (p j) := lt_of_le_of_ne htnonneg (Ne.symm h)
    refine ⟨div_nonneg (clamp01_nonneg (p i)) htnonneg, (div_le_one htpos).mpr ?_⟩
    exact Finset.single_le_sum (fun j _ => clamp01_nonneg (p j)) (Finset.mem_univ i)

/-- Every per-driver delta is bounded by the largest one. -/
theorem abs_le_maxAbsDelta {n : ℕ} (prev target : Fin n → ℚ) (i : Fin n) :
    |target i - prev i| ≤ maxAbsDelta prev target :=
  (Finset.le_fold_max _).mpr (Or.inr ⟨i, Finset.mem_univ i, le_refl _⟩)

/-- The largest delta is nonnegative. -/
theorem maxAbsDelta_nonneg {n : ℕ} (prev target : Fin n → ℚ) :
    0 ≤ maxAbsDelta prev target :=
  (Finset.le_fold_max _).mpr (Or.inl (le_refl 0))

/-- The smoothing factor lies in [0,1]. -/
theorem smoothFactor_mem_unit {n : ℕ} (prev target : Fin n → ℚ) (cap : ℚ)
    (hcap : 0 ≤ cap) :
    0 ≤ smoothFactor prev target cap ∧ smoothFactor prev target cap ≤ 1 := by
  unfold smoothFactor
  by_cases h : maxAbsDelta prev target ≤ cap
  · rw [if_pos h]
    exact ⟨zero_le_one, le_refl 1⟩
  · rw [if_neg h]
    have hm : 0 < maxAbsDelta prev target := lt_of_le_of_lt hcap (not_le.mp h)
    exact ⟨div_nonneg hcap hm.le, (div_le_one hm).mpr (not_le.mp h).le⟩

/-- The scaled delta of any driver stays within the cap. -/
theorem smoothFactor_mul_le {n : ℕ} (prev target : Fin n → ℚ) (cap : ℚ)
    (hcap : 0 ≤ cap) (i : Fin n) :
    smoothFactor prev target cap * |target i - prev i| ≤ cap := by
  unfold smoothFactor
  by_cases h : maxAbsDelta prev target ≤ cap
  · rw [if_pos h, one_mul]
    exact le_trans (abs_le_maxAbsDelta prev target i) h
  · rw [if_neg h]
    have hm : 0 < maxAbsDelta prev target := lt_of_le_of_lt hcap (not_le.mp h)
    calc cap / maxAbsDelta prev target * |target i - prev i|
        ≤ cap / maxAbsDelta prev target * maxAbsDelta prev target :=
          mul_le_mul_of_nonneg_left (abs_le_maxAbsDelta prev target i)
            (div_nonneg hcap hm.le)
      _ = cap := div_mul_cancel₀ cap hm.ne'

/-- Smoothing moves no driver's probability by more than the cap. -/
theorem smooth_delta_le {n : ℕ} (prev target : Fin n → ℚ) (cap : ℚ)
    (hcap : 0 ≤ cap) (i : Fin n) :
    |smoothToward prev target cap i - prev i| ≤ cap := by
  unfold smoothToward
  have heq : prev i + smoothFactor prev target cap * (target i - prev i) - prev i
      = smoothFactor prev target cap * (target i - prev i) := by ring
  rw [heq, abs_mul, abs_of_nonneg (smoothFactor_mem_unit prev target cap hcap).1]
  exact smoothFactor_mul_le prev target cap hcap i

/-- Smoothing conserves total probability mass. -/
theorem sum_smoothToward {n : ℕ} (prev target : Fin n → ℚ) (cap : ℚ)
    (hprev : (∑ i, prev i) = 1) (htarget : (∑ i, target i) = 1) :
    (∑ i, smoothToward prev target cap i) = 1 := by
  unfold smoothToward
  rw [Finset.sum_add_distrib, ← Finset.mul_sum, Finset.sum_sub_distrib, hprev, htarget]
  ring

/-- Smoothing keeps every probability inside [0,1]: the result is a convex
combination of the previous and target values. -/
theorem smoothToward_mem_unit {n : ℕ} (prev target : Fin n → ℚ) (cap : ℚ)
    (hcap : 0 ≤ cap) (hp0 : ∀ i, 0 ≤ prev i) (hp1 : ∀ i, prev i ≤ 1)
    (ht0 : ∀ i, 0 ≤ target i) (ht1 : ∀ i, target i ≤ 1) (i : Fin n) :
    0 ≤ smoothToward prev target cap i ∧ smoothToward prev target cap i ≤ 1 := by
  obtain ⟨hf0, hf1⟩ := smoothFactor_mem_unit prev target cap hcap
  unfold smoothToward
  constructor
  · nlinarith [mul_nonneg (hp0 i) (sub_nonneg.mpr hf1), mul_nonneg hf0 (ht0 i)]
  · nlinarith [mul_nonneg (sub_nonneg.mpr (hp1 i)) (sub_nonneg.mpr hf1),
      mul_nonneg hf0 (sub_nonneg.mpr (ht1 i))]

/-- A recomputation tick conserves total probability mass. -/
theorem sum_engineTick {n : ℕ} (hn : 0 < n) (prev raw : Fin n → ℚ) (ch : Bool)
    (hprev : (∑ i, prev i) = 1) :
    (∑ i, engineTick prev raw ch i) = 1 := by
  cases ch
  · exact sum_smoothToward prev (renormalize raw) deltaCap hprev (sum_renormalize hn raw)
  · exact sum_renormalize hn raw

/-- C7: every `engineTick` result is clamped to [0,1] and renormalized to
sum to 1 within its category; when the tick is not a track-status change,
each per-driver probability differs from the previous result by at most 15
percentage points; on a track-status change the delta cap is lifted and the
result is exactly the renormalized new score. -/
theorem engineTick_policy {n : ℕ} (hn : 0 < n) (prev raw : Fin n → ℚ) (ch : Bool)
    (hp0 : ∀ i, 0 ≤ prev i) (hp1 : ∀ i, prev i ≤ 1)
    (hsum : (∑ i, prev i) = 1) :
    (∀ i, 0 ≤ engineTick prev raw ch i ∧ engineTick prev raw ch i ≤ 1) ∧
    (∑ i, engineTick prev raw ch i) = 1 ∧
    (ch = false → ∀ i, |engineTick prev raw ch i - prev i| ≤ 15 / 100) ∧
    (ch = true → engineTick prev raw ch = renormalize raw) := by
  refine ⟨?_, sum_engineTick hn prev raw ch hsum, ?_, ?_⟩
  · intro i
    cases ch
    · exact smoothToward_mem_unit prev (renormalize raw) deltaCap
        (by norm_num [deltaCap]) hp0 hp1
        (fun j => (renormalize_mem_unit hn raw j).1)
        (fun j => (renormalize_mem_unit hn raw j).2) i
    · exact renormalize_mem_unit hn raw i
  · intro hch i
    subst hch
    have hd := smooth_delta_le prev (renormalize raw) deltaCap
      (by norm_num [deltaCap]) i
    simpa [deltaCap] using hd
  · intro hch
    subst hch
    rfl

/-- Concrete instance of the numeric policy: with two drivers at probability
1/2 each and raw scores (3, -1), the smoothed tick still sums to 1. -/
theorem engineTick_policy_witness :
    (∑ i, engineTick (fun _ : Fin 2 => (1 : ℚ) / 2)
        (fun j => if j = 0 then 3 else -1) false i) = 1 :=
  (engineTick_policy (by norm_num) (fun _ : Fin 2 => (1 : ℚ) / 2)
    (fun j => if j = 0 then 3 else -1) false
    (fun i => by norm_num) (fun i => by norm_num)
    (by norm_num [Fin.sum_univ_two])).2.1

/-- Every result in the tail of a run keeps total mass 1. -/
theorem probResultsAux_sum {n : ℕ} (hn : 0 < n) :
    ∀ (ts : List ((Fin n → ℚ) × Bool)) (prev : Fin n → ℚ),
      (∑ i, prev i) = 1 → ∀ r ∈ probResultsAux prev ts, (∑ i, r i) = 1 := by
  intro ts
  induction ts with
  | nil =>
    intro prev _ r hr
    exact absurd hr (List.not_mem_nil r)
  | cons t ts ih =>
    intro prev hprev r hr
    rcases List.mem_cons.mp hr with heq | hmem
    · subst heq
      exact sum_engineTick hn prev t.1 t.2 hprev
    · exact ih (engineTick prev t.1 t.2) (sum_engineTick hn prev t.1 t.2 hprev) r hmem

/-- C1: over any run of the Probability Engine with at least one non-retired
driver, every produced win-probability vector sums to 1, hence to 1 within
the 1e-6 tolerance. -/
theorem probResults_sum_one {n : ℕ} (hn : 0 < n) (raw₀ : Fin n → ℚ)
    (ts : List ((Fin n → ℚ) × Bool)) (r : Fin n → ℚ)
    (hr : r ∈ probResults raw₀ ts) :
    |(∑ i, r i) - 1| ≤ 1 / 1000000 := by
  have hsum : (∑ i, r i) = 1 := by
    unfold probResults at hr
    rcases List.mem_cons.mp hr with heq | hmem
    · subst heq
      exact sum_renormalize hn raw₀
    · exact probResultsAux_sum hn ts (renormalize raw₀) (sum_renormalize hn raw₀) r hmem
  rw [hsum]
  norm_num

/-- Concrete instance of the win-probability invariant: a one-driver session
whose raw score is 2 yields a result summing to 1 within tolerance. -/
theorem probResults_sum_one_witness :
    |(∑ i, renormalize (fun _ : Fin 1 => (2 : ℚ)) i) - 1| ≤ 1 / 1000000 :=
  probResults_sum_one (by norm_num) (fun _ : Fin 1 => (2 : ℚ)) []
    (renormalize (fun _ : Fin 1 => (2 : ℚ))) (List.Mem.head _)
